import Mathlib

/-!
Verification development for the Foundry OS repository (manifest-driven
project bookkeeping).  The definitions below are a shallow embedding of the
manifest store, the discovery and aggregation logic, and the write
operations, translated from src/foundry_v11.py (class FoundryOS) and
src/dashboard.py (class DashboardManager).

Modelling conventions:
- JSON documents (the result of json.load) are modelled by the inductive
  type Json; Python dicts are insertion-ordered association lists with
  unique keys, so dict assignment is modelled by setKey (update in place,
  append when absent), matching CPython dict semantics.
- Python int/float numbers are modelled as exact rationals.  Every numeric
  value exercised by the claims (for example 1234.50) is exactly
  representable, and no claim depends on binary floating-point rounding.
- The filesystem is explicit: the projects directory is a list of
  FileEntry values (file name, last-modified timestamp already in ISO
  form, and parse outcome of the file body), with the whole directory
  optional (none models a missing directory, which discover_projects
  treats as empty).  Diagnostics written through FoundryOS.log are
  modelled as a returned list of Diag values.
- Python str.lower is modelled by mapping Char.toLower over the
  characters (faithful for the ASCII names exercised here), and the
  single-character str.replace calls by a character map.
-/

namespace Foundry

/-- JSON values as produced by json.load: None, bool, numbers, str,
list, dict (insertion-ordered, unique string keys). -/
inductive Json where
  | null
  | bool (b : Bool)
  | num (q : ℚ)
  | str (s : String)
  | arr (elems : List Json)
  | obj (fields : List (String × Json))

mutual

def Json.beq : Json → Json → Bool
  | .null, .null => true
  | .bool a, .bool b => a = b
  | .num a, .num b => a = b
  | .str a, .str b => a = b
  | .arr xs, .arr ys => Json.beqL xs ys
  | .obj xs, .obj ys => Json.beqF xs ys
  | _, _ => false

def Json.beqL : List Json → List Json → Bool
  | [], [] => true
  | x :: xs, y :: ys => Json.beq x y && Json.beqL xs ys
  | _, _ => false

def Json.beqF : List (String × Json) → List (String × Json) → Bool
  | [], [] => true
  | (k, v) :: xs, (l, w) :: ys => k = l && Json.beq v w && Json.beqF xs ys
  | _, _ => false

end

mutual

theorem Json.beq_iff : ∀ a b : Json, Json.beq a b = true ↔ a = b
  | .null, .null => by simp [Json.beq]
  | .bool _, .bool _ => by simp [Json.beq]
  | .num _, .num _ => by simp [Json.beq]
  | .str _, .str _ => by simp [Json.beq]
  | .arr xs, .arr ys => by simp [Json.beq, Json.beqL_iff xs ys]
  | .obj xs, .obj ys => by simp [Json.beq, Json.beqF_iff xs ys]
  | .null, .bool _ | .null, .num _ | .null, .str _ | .null, .arr _ | .null, .obj _ => by simp [Json.beq]
  | .bool _, .null | .bool _, .num _ | .bool _, .str _ | .bool _, .arr _ | .bool _, .obj _ => by simp [Json.beq]
  | .num _, .null | .num _, .bool _ | .num _, .str _ | .num _, .arr _ | .num _, .obj _ => by simp [Json.beq]
  | .str _, .null | .str _, .bool _ | .str _, .num _ | .str _, .arr _ | .str _, .obj _ => by simp [Json.beq]
  | .arr _, .null | .arr _, .bool _ | .arr _, .num _ | .arr _, .str _ | .arr _, .obj _ => by simp [Json.beq]
  | .obj _, .null | .obj _, .bool _ | .obj _, .num _ | .obj _, .str _ | .obj _, .arr _ => by simp [Json.beq]

theorem Json.beqL_iff : ∀ xs ys : List Json, Json.beqL xs ys = true ↔ xs = ys
  | [], [] => by simp [Json.beqL]
  | x :: xs, y :: ys => by simp [Json.beqL, Json.beq_iff x y, Json.beqL_iff xs ys]
  | [], _ :: _ => by simp [Json.beqL]
  | _ :: _, [] => by simp [Json.beqL]

theorem Json.beqF_iff : ∀ xs ys : List (String × Json), Json.beqF xs ys = true ↔ xs = ys
  | [], [] => by simp [Json.beqF]
  | (k, v) :: xs, (l, w) :: ys => by
      simp [Json.beqF, Json.beq_iff v w, Json.beqF_iff xs ys, and_assoc]
  | [], _ :: _ => by simp [Json.beqF]
  | _ :: _, [] => by simp [Json.beqF]

end

instance : DecidableEq Json := fun a b => decidable_of_iff (Json.beq a b = true) (Json.beq_iff a b)

/-- A Python dict body: insertion-ordered association list with (by dict
semantics) unique keys. -/
abbrev Obj := List (String × Json)

/-- Python str.lower, modelled characterwise (faithful on ASCII). -/
def pyLower (s : String) : String := String.mk (s.data.map Char.toLower)

/-- Python single-character str.replace, a characterwise map. -/
def replaceChar (a b : Char) (s : String) : String :=
  String.mk (s.data.map (fun c => if c = a then b else c))

/-- Code-point lexicographic comparison of character lists: the order
Python uses to compare str values. -/
def charListLe : List Char → List Char → Bool
  | [], _ => true
  | _ :: _, [] => false
  | a :: as, b :: bs =>
      if a.toNat < b.toNat then true
      else if b.toNat < a.toNat then false
      else charListLe as bs

/-- Python str less-or-equal (code-point lexicographic). -/
def pyStrLe (a b : String) : Bool := charListLe a.data b.data

/-- Python dict lookup d.get(k) as an Option. -/
def pyLookup {β : Type} (d : List (String × β)) (k : String) : Option β :=
  match d with
  | [] => none
  | (k₀, v) :: rest => if k₀ = k then some v else pyLookup rest k

/-- Python dict assignment d[k] = v: update in place when the key is
present (keeping its position), append otherwise. -/
def setKey {β : Type} (d : List (String × β)) (k : String) (v : β) : List (String × β) :=
  match d with
  | [] => [(k, v)]
  | (k₀, v₀) :: rest => if k₀ = k then (k, v) :: rest else (k₀, v₀) :: setKey rest k v

/-- Counter dicts keyed by arbitrary (hashable) Python values, here Json. -/
def jLookup (d : List (Json × ℕ)) (k : Json) : Option ℕ :=
  match d with
  | [] => none
  | (k₀, v) :: rest => if k₀ = k then some v else jLookup rest k

/-- d.get(k, 0) on a counter dict. -/
def lookupCount (d : List (Json × ℕ)) (k : Json) : ℕ := (jLookup d k).getD 0

/-- d[k] = d.get(k, 0) + 1, the counting idiom used by the aggregations. -/
def bump (d : List (Json × ℕ)) (k : Json) : List (Json × ℕ) :=
  match d with
  | [] => [(k, 1)]
  | (k₀, v) :: rest => if k₀ = k then (k₀, v + 1) :: rest else (k₀, v) :: bump rest k

/-- Number of occurrences of k in a list of Json values. -/
def occCount (k : Json) (l : List Json) : ℕ := (l.filter (fun a => a = k)).length

/-- Python truthiness of a json.load value ("if not revenue_str"). -/
def pyFalsy : Json → Bool
  | .null => true
  | .bool b => !b
  | .num q => q = 0
  | .str s => s.data.isEmpty
  | .arr xs => xs.isEmpty
  | .obj fs => fs.isEmpty

/-- The characters the revenue regex keeps: digits, the dot and the
minus sign (re.sub strips every other character). -/
def keptChar (c : Char) : Bool := ('0' ≤ c && c ≤ '9') || c = '.' || c = '-'

/-- re.sub applied to the revenue string: keep digits, dot, minus. -/
def cleanRevenue (s : String) : List Char := s.data.filter keptChar

def isDigitChar (c : Char) : Bool := '0' ≤ c && c ≤ '9'

def natOfDigits (cs : List Char) : ℕ :=
  cs.foldl (fun n c => 10 * n + (c.toNat - '0'.toNat)) 0

/-- Python float() on a string whose characters are only digits, dot and
minus (the output of cleanRevenue): an optional minus sign followed by
digits with at most one dot and at least one digit.  The value is
returned as (negative flag, mantissa digits as a natural number, number
of fractional digits); none models ValueError. -/
def parseUnsignedParts? (cs : List Char) : Option (ℕ × ℕ) :=
  let intPart := cs.takeWhile isDigitChar
  match cs.dropWhile isDigitChar with
  | [] => if intPart.isEmpty then none else some (natOfDigits intPart, 0)
  | '.' :: frac =>
      if frac.all isDigitChar && !(intPart.isEmpty && frac.isEmpty) then
        some (natOfDigits (intPart ++ frac), frac.length)
      else none
  | _ => none

def parseFloatParts? (cs : List Char) : Option (Bool × ℕ × ℕ) :=
  match cs with
  | '-' :: rest => (parseUnsignedParts? rest).map (fun p => (true, p))
  | _ => (parseUnsignedParts? cs).map (fun p => (false, p))

/-- The rational value of a parse outcome; an unparsable (or empty)
string yields 0, as in the except ValueError branch. -/
def ratOfParts : Option (Bool × ℕ × ℕ) → ℚ
  | none => 0
  | some (neg, m, k) => (if neg then -1 else 1) * (m : ℚ) / 10 ^ k

/-- DashboardManager.parse_revenue (src/dashboard.py lines 94-105):
falsy values give 0.0; numbers pass through; strings are stripped down to
digits, dot and minus and parsed as a float, with an empty or unparsable
remainder giving 0.0.  A Python bool is an int, so the only non-falsy
bool, True, passes through as 1.0.  For a non-empty list or dict CPython
would stringify its repr before stripping; no manifest in any claim
carries such a revenue value and those cases are modelled as 0. -/
def parse_revenue (j : Json) : ℚ :=
  if pyFalsy j then 0
  else
    match j with
    | .num q => q
    | .bool _ => 1
    | .str s => ratOfParts (parseFloatParts? (cleanRevenue s))
    | _ => 0

/-- Discovery configuration: whether a schema document is configured (in
the source, a non-empty self.schema dict loaded from the schema file) and
the abstract outcome of jsonschema.validate against it. -/
structure Config where
  schemaConfigured : Bool
  schemaOk : Json → Bool

/-- One file of the projects directory matching the *.json glob: its file
name, its last-modified timestamp already rendered in ISO form, and the
outcome of json.load on its body (none models a json.JSONDecodeError). -/
structure FileEntry where
  name : String
  mtime : String
  content : Option Json
deriving DecidableEq

/-- The three diagnostic kinds discover_projects can log for a skipped
file: invalid JSON, invalid manifest schema, and the catch-all failed to
load (raised for example when attaching metadata to a non-dict value). -/
inductive DiagKind where
  | parseError
  | schemaError
  | loadError
deriving DecidableEq

structure Diag where
  file : String
  kind : DiagKind
deriving DecidableEq

/-- The two metadata assignments of discover_projects:
project_data[_manifest_file] and project_data[_last_modified].  In
CPython an item assignment on a non-dict json.load result raises
TypeError, caught by the catch-all except clause. -/
def attachObj (f : FileEntry) (fs : Obj) : Obj :=
  setKey (setKey fs "_manifest_file" (.str f.name)) "_last_modified" (.str f.mtime)

def attachMeta (f : FileEntry) : Json → Option Obj
  | .obj fs => some (attachObj f fs)
  | _ => none

/-- The body of the discover_projects loop for one file: parse, validate
against the schema when one is configured, attach metadata; each failure
is logged and the file skipped. -/
def processFile (cfg : Config) (f : FileEntry) : Except Diag Obj :=
  match f.content with
  | none => .error ⟨f.name, .parseError⟩
  | some j =>
      if cfg.schemaConfigured && !cfg.schemaOk j then .error ⟨f.name, .schemaError⟩
      else
        match attachMeta f j with
        | some o => .ok o
        | none => .error ⟨f.name, .loadError⟩

/-- Stable insertion used to model Python sorted (Timsort and insertion
sort agree on every input because both are stable). -/
def insertBy {α : Type} (le : α → α → Bool) (a : α) : List α → List α
  | [] => [a]
  | b :: bs => if le a b then a :: b :: bs else b :: insertBy le a bs

def sortBy {α : Type} (le : α → α → Bool) : List α → List α
  | [] => []
  | a :: as => insertBy le a (sortBy le as)

/-- The sort key of discover_projects: x.get(projectName, empty string).
CPython would raise comparing a non-string key against a string; every
theorem about sorting assumes string (or absent) project names, and
non-string names are mapped to the empty string here. -/
def strKey (o : Obj) : String :=
  match (pyLookup o "projectName").getD (.str "") with
  | .str s => s
  | _ => ""

def manifestLe (x y : Obj) : Bool := pyStrLe (strKey x) (strKey y)

/-- One iteration of the discover_projects loop over the accumulated
(projects, log lines) pair. -/
def scanStep (cfg : Config) (acc : List Obj × List Diag) (f : FileEntry) :
    List Obj × List Diag :=
  match processFile cfg f with
  | .ok o => (acc.1 ++ [o], acc.2)
  | .error d => (acc.1, acc.2 ++ [d])

/-- FoundryOS.discover_projects (src/foundry_v11.py lines 89-120): a
missing directory yields no projects; otherwise each *.json file is
parsed, validated and annotated, failures are logged and skipped, and
the surviving manifests are returned sorted by project name.  The pair
also carries the log lines emitted for skipped files. -/
def discover_projects (cfg : Config) : Option (List FileEntry) → List Obj × List Diag
  | none => ([], [])
  | some files =>
      let scanned := files.foldl (scanStep cfg) ([], [])
      (sortBy manifestLe scanned.1, scanned.2)

/-- FoundryOS.find_project (lines 122-128): first manifest of the
discovered (sorted) list whose lowercased name equals the lowercased
query. -/
def find_project (cfg : Config) (dir : Option (List FileEntry)) (q : String) : Option Obj :=
  (discover_projects cfg dir).1.find? (fun p => pyLower (strKey p) = pyLower q)

/-- project.get(key, default) on a manifest dict. -/
def pyGet (o : Obj) (k : String) (d : Json) : Json := (pyLookup o k).getD d

/-- value.get(key, default) on a Json value expected to be a dict.  In
CPython a .get call on a non-dict raises AttributeError; the claims never
exercise that case and it is modelled by the default. -/
def pyGetJ (j : Json) (k : String) (d : Json) : Json :=
  match j with
  | .obj fs => pyGet fs k d
  | _ => d

/-- project.get(status) not in [archived, completed] — the filter both
aggregations apply before counting team members and tasks. -/
def isActive (p : Obj) : Bool :=
  let s := (pyLookup p "status").getD .null
  !(s = Json.str "archived" || s = Json.str "completed")

/-- project.get(team, []) as an iterable.  CPython would iterate the
characters of a str or the keys of a dict and raise on a number; the
claims only exercise list-valued (or absent) teams and other shapes are
modelled as empty. -/
def teamOf (p : Obj) : List Json :=
  match pyGet p "team" (.arr []) with
  | .arr xs => xs
  | _ => []

/-- project.get(tasks, {}).get(active, []) as a list. -/
def activeTasks (p : Obj) : List Json :=
  match pyGetJ (pyGet p "tasks" (.obj [])) "active" (.arr []) with
  | .arr xs => xs
  | _ => []

/-- task.get(priority, medium); a non-dict task entry is modelled by the
default (CPython would raise). -/
def priorityOf (t : Json) : Json := pyGetJ t "priority" (.str "medium")

def projMetrics (p : Obj) : Json := pyGet p "metrics" (.obj [])

/-- The revenue the dashboard aggregation attributes to one manifest:
parse_revenue(metrics.get(revenue, 0)). -/
def projRevenue (p : Obj) : ℚ := parse_revenue (pyGetJ (projMetrics p) "revenue" (.num 0))

/-- One entry of the revenue_projects list built by
get_empire_analytics. -/
structure RevProj where
  name : Json
  revenue : ℚ
  status : Json
  users : Json
deriving DecidableEq

def mkRevProj (p : Obj) : RevProj :=
  { name := pyGet p "projectName" (.str "Unknown")
  , revenue := projRevenue p
  , status := pyGet p "status" (.str "unknown")
  , users := pyGetJ (projMetrics p) "users" (.num 0) }

/-- The revenue loop of get_empire_analytics: accumulate the total and
append a record for every manifest with revenue strictly above 0. -/
def revStep (acc : ℚ × List RevProj) (p : Obj) : ℚ × List RevProj :=
  let revenue := projRevenue p
  if 0 < revenue then (acc.1 + revenue, acc.2 ++ [mkRevProj p])
  else (acc.1 + revenue, acc.2)

/-- The status-distribution loop: status_counts[status] += 1 with
project.get(status, unknown) as the key. -/
def statusStep (d : List (Json × ℕ)) (p : Obj) : List (Json × ℕ) :=
  bump d (pyGet p "status" (.str "unknown"))

/-- One step of the agent-workload accumulation over a single manifest. -/
def workFold (d : List (Json × ℕ)) (p : Obj) : List (Json × ℕ) :=
  if isActive p then (teamOf p).foldl bump d else d

/-- One step of the combined workload and task-priority loop of
get_empire_analytics (both counters are filled inside the same for). -/
def workStep (acc : List (Json × ℕ) × List (Json × ℕ)) (p : Obj) :
    List (Json × ℕ) × List (Json × ℕ) :=
  if isActive p then
    ((teamOf p).foldl bump acc.1,
     (activeTasks p).foldl (fun d t => bump d (priorityOf t)) acc.2)
  else acc

/-- The initial task_distribution dict of get_empire_analytics. -/
def taskDistInit : List (Json × ℕ) :=
  [(.str "high", 0), (.str "medium", 0), (.str "low", 0), (.str "critical", 0)]

/-- The analytics record returned by
DashboardManager.get_empire_analytics (src/dashboard.py lines 107-180).
The growth_data entries (simulated chart points derived from start
dates) are presentation-only and not modelled. -/
structure Analytics where
  total_projects : ℕ
  active_projects : ℕ
  total_revenue : ℚ
  revenue_projects : List RevProj
  status_distribution : List (Json × ℕ)
  agent_workload : List (Json × ℕ)
  task_distribution : List (Json × ℕ)
  projects : List Obj

/-- DashboardManager.get_empire_analytics over the discovered manifest
list, transcribing its three aggregation loops. -/
def get_empire_analytics (projects : List Obj) : Analytics :=
  let rev := projects.foldl revStep (0, [])
  let wt := projects.foldl workStep ([], taskDistInit)
  { total_projects := projects.length
  , active_projects := (projects.filter isActive).length
  , total_revenue := rev.1
  , revenue_projects := rev.2
  , status_distribution := projects.foldl statusStep []
  , agent_workload := wt.1
  , task_distribution := wt.2
  , projects := projects }

/-- The agent-workload loop of FoundryOS.get_empire_status
(src/foundry_v11.py lines 222-227), identical in logic to the one in the
dashboard. -/
def foundry_agent_workload (projects : List Obj) : List (Json × ℕ) :=
  projects.foldl workFold []

/-- Failure modes of FoundryOS.create_project_from_manifest once the
manifest file itself has been read: a schema violation (jsonschema
raises), an AttributeError (json.load gave a non-dict, or projectName is
not a string, so .get or .lower raises), or the explicit already-exists
ClickException. -/
inductive CreateError where
  | schemaInvalid
  | attributeError
  | alreadyExists (name : String)
deriving DecidableEq

/-- The derived file-name key of the CLI create path:
project_name.lower().replace(' ', '_') — only spaces are replaced. -/
def derivedKey (name : String) : String := replaceChar ' ' '_' (pyLower name)

/-- The derived key of the dashboard form-create path
(src/dashboard.py line 254), which additionally replaces hyphens. -/
def dashboardFormKey (name : String) : String :=
  replaceChar '-' '_' (replaceChar ' ' '_' (pyLower name))

def fileNamed (files : List FileEntry) (n : String) : Option FileEntry :=
  files.find? (fun f => f.name = n)

/-- FoundryOS.create_project_from_manifest (src/foundry_v11.py lines
130-157), starting from the already-loaded manifest document: validate
against the schema when configured, derive the target file name from the
project name, refuse when that file already exists, otherwise write the
manifest there.  The mtime argument is the write timestamp of the new
file. -/
def create_project_from_manifest (cfg : Config) (files : List FileEntry)
    (project_data : Json) (mtime : String) : Except CreateError (List FileEntry) :=
  if cfg.schemaConfigured && !cfg.schemaOk project_data then .error .schemaInvalid
  else
    match project_data with
    | .obj fs =>
        match (pyLookup fs "projectName").getD (.str "unknown") with
        | .str project_name =>
            let target := derivedKey project_name ++ ".json"
            if (fileNamed files target).isSome then .error (.alreadyExists project_name)
            else .ok (files ++ [⟨target, mtime, some project_data⟩])
        | _ => .error .attributeError
    | _ => .error .attributeError

/-- The projects directory as left behind by a create call: unchanged
when the operation failed. -/
def afterCreate (cfg : Config) (files : List FileEntry) (project_data : Json)
    (mtime : String) : List FileEntry :=
  match create_project_from_manifest cfg files project_data mtime with
  | .ok fs => fs
  | .error _ => files

/-- The immutable assignment record written by FoundryOS.assign_task. -/
structure Assignment where
  id : String
  task : String
  project : String
  agent : String
  status : String
  created_at : String
  completed_at : Option String
  result : Option Json
deriving DecidableEq

inductive AssignError where
  | projectNotFound (name : String)
deriving DecidableEq

/-- The hub state touched by assign_task: the projects directory (read
only through discovery) and the shared-context directory of assignment
files. -/
structure HubState where
  projectsDir : Option (List FileEntry)
  shared : List (String × Assignment)
deriving DecidableEq

/-- FoundryOS.assign_task (src/foundry_v11.py lines 159-192): resolve the
project by case-insensitive lookup, fail with a ClickException when it is
not found, otherwise write one assignment record (status assigned,
completed_at and result both None) into the shared-context area under
projectname_task_timestamp.json.  nowStamp is the strftime timestamp and
nowIso the isoformat creation time; the unregistered-agent warning is a
pure echo and not modelled. -/
def assign_task (cfg : Config) (st : HubState) (task project_name agent : String)
    (nowStamp nowIso : String) : Except AssignError (HubState × Assignment) :=
  match find_project cfg st.projectsDir project_name with
  | none => .error (.projectNotFound project_name)
  | some _ =>
      let task_id := "task_" ++ nowStamp
      let a : Assignment :=
        { id := task_id, task := task, project := project_name, agent := agent
        , status := "assigned", created_at := nowIso
        , completed_at := none, result := none }
      let fname := replaceChar ' ' '_' (pyLower project_name) ++ "_" ++ task_id ++ ".json"
      .ok (⟨st.projectsDir, setKey st.shared fname a⟩, a)

/-- The hub state as left behind by an assign call: unchanged when the
operation failed. -/
def afterAssign (cfg : Config) (st : HubState) (task project_name agent : String)
    (nowStamp nowIso : String) : HubState :=
  match assign_task cfg st task project_name agent nowStamp nowIso with
  | .ok (st₂, _) => st₂
  | .error _ => st

/-- Modelled from the spec: the count claim C2 states — the number of
files that parse as valid JSON and, when a schema is configured,
validate against it (with no condition on the shape of the parsed
value). -/
def claimValidCount (cfg : Config) (files : List FileEntry) : ℕ :=
  (files.filter (fun f =>
    match f.content with
    | some j => !cfg.schemaConfigured || cfg.schemaOk j
    | none => false)).length

/-- Modelled from the spec: the workload claim C4 states — the number of
non-archived, non-completed projects whose team lists the agent (once or
more). -/
def workloadSpec (ps : List Obj) (a : Json) : ℕ :=
  (ps.filter (fun p => isActive p && decide (a ∈ teamOf p))).length

/-- A file passing every check of the discover loop: parses, satisfies
the configured schema, and parses to a dict (so that attaching metadata
succeeds). -/
def goodFile (cfg : Config) (f : FileEntry) : Bool :=
  match f.content with
  | some (.obj _) => !cfg.schemaConfigured || cfg.schemaOk (f.content.getD .null)
  | _ => false

/-- The diagnostic the discover loop records for a skipped file. -/
def diagOf (cfg : Config) (f : FileEntry) : Option Diag :=
  match f.content with
  | none => some ⟨f.name, .parseError⟩
  | some j =>
      if cfg.schemaConfigured && !cfg.schemaOk j then some ⟨f.name, .schemaError⟩
      else
        match j with
        | .obj _ => none
        | _ => some ⟨f.name, .loadError⟩

/-- The manifest a surviving file contributes. -/
def okOf (cfg : Config) (f : FileEntry) : Option Obj :=
  match processFile cfg f with
  | .ok o => some o
  | .error _ => none

/-- A manifest whose projectName entry (with default empty string) is a
string — the domain on which the embedded sort key is faithful to
CPython, whose sorted raises comparing non-string keys. -/
def hasStrName (o : Obj) : Bool :=
  match (pyLookup o "projectName").getD (.str "") with
  | .str _ => true
  | _ => false

/-- Fixtures used by concrete conjuncts and witnesses: a configuration
with no schema file, and small stores and manifests. -/
def exCfg : Config := ⟨false, fun _ => true⟩

def exZeta : FileEntry := ⟨"zeta.json", "t1", some (.obj [("projectName", .str "Zeta")])⟩

def exAlpha : FileEntry := ⟨"alpha.json", "t2", some (.obj [("projectName", .str "alpha")])⟩

def exBeta : FileEntry := ⟨"beta.json", "t3", some (.obj [("projectName", .str "Beta")])⟩

/-- A file whose body is valid JSON but not an object. -/
def exNumFile : FileEntry := ⟨"n.json", "t", some (.num 42)⟩

/-- An active project listing the same agent twice in its team. -/
def exDup : Obj :=
  [("projectName", .str "Acme"), ("status", .str "production"),
   ("team", .arr [.str "alice", .str "alice"])]

/-- The first manifest of the end-to-end example in the spec. -/
def exAcme : Obj :=
  [("projectName", .str "Acme"), ("status", .str "production"),
   ("metrics", .obj [("revenue", .str "$1,000")]), ("team", .arr [.str "alice"])]

/-- The second (archived) manifest of the end-to-end example. -/
def exArchived : Obj :=
  [("projectName", .str "Beta"), ("status", .str "archived"),
   ("metrics", .obj [("revenue", .str "$500")]), ("team", .arr [.str "alice"])]

/-- Manifests exercising the revenue-parsing identities inside the
aggregation. -/
def exRev1 : Obj :=
  [("projectName", .str "A"), ("metrics", .obj [("revenue", .str "$1,234.50")])]

def exRev2 : Obj :=
  [("projectName", .str "B"), ("metrics", .obj [("revenue", .num 42)])]

def exRev3 : Obj :=
  [("projectName", .str "C"), ("metrics", .obj [("revenue", .str "N/A")])]

/-- A store entry with a well-formed manifest named Acme. -/
def exAcmeFile : FileEntry := ⟨"acme.json", "ta", some (.obj exAcme)⟩

/-- A store entry whose manifest lacks the projectName field. -/
def exNoNameFile : FileEntry := ⟨"noname.json", "tn", some (.obj [("status", .str "planning")])⟩

/-- A hub state whose store holds the Acme manifest and whose
shared-context area is empty. -/
def exHub : HubState := ⟨some [exAcmeFile], []⟩

end Foundry

namespace Foundry

/-! Helper lemmas about the dictionary and counter operations. -/

theorem pyLookup_setKey {β : Type} (d : List (String × β)) (k : String) (v : β) (k₂ : String) :
    pyLookup (setKey d k v) k₂ = if k = k₂ then some v else pyLookup d k₂ := by
  induction d with
  | nil => simp [setKey, pyLookup]
  | cons hd rest ih =>
      obtain ⟨k₀, v₀⟩ := hd
      by_cases h : k₀ = k
      · subst h
        by_cases h₂ : k₀ = k₂ <;> simp [setKey, pyLookup, h₂]
      · by_cases h₂ : k₀ = k₂
        · subst h₂
          have hne : ¬k = k₀ := fun hh => h hh.symm
          simp [setKey, pyLookup, h, hne]
        · simp [setKey, pyLookup, h, h₂, ih]

theorem lookupCount_bump (d : List (Json × ℕ)) (k k₂ : Json) :
    lookupCount (bump d k) k₂ = lookupCount d k₂ + if k = k₂ then 1 else 0 := by
  induction d with
  | nil =>
      by_cases h : k = k₂ <;> simp [bump, lookupCount, jLookup, h]
  | cons hd rest ih =>
      obtain ⟨k₀, v₀⟩ := hd
      by_cases h : k₀ = k
      · subst h
        by_cases h₂ : k₀ = k₂ <;> simp [bump, lookupCount, jLookup, h₂]
      · have hb : bump ((k₀, v₀) :: rest) k = (k₀, v₀) :: bump rest k := by
          simp [bump, h]
        rw [hb]
        by_cases h₂ : k₀ = k₂
        · subst h₂
          have hk : ¬k = k₀ := fun hh => h hh.symm
          simp [lookupCount, jLookup, hk]
        · simp only [lookupCount, jLookup, if_neg h₂]
          simpa [lookupCount] using ih

theorem occCount_nil (k : Json) : occCount k [] = 0 := rfl

theorem occCount_cons (k a : Json) (l : List Json) :
    occCount k (a :: l) = (if a = k then 1 else 0) + occCount k l := by
  by_cases h : a = k <;> simp [occCount, List.filter, h, Nat.add_comm]

theorem lookupCount_foldl_bump (l : List Json) (d : List (Json × ℕ)) (k : Json) :
    lookupCount (l.foldl bump d) k = lookupCount d k + occCount k l := by
  induction l generalizing d with
  | nil => simp [occCount]
  | cons a l ih =>
      rw [List.foldl_cons, ih, lookupCount_bump, occCount_cons]
      ring

theorem foldl_workStep_fst (ps : List Obj) (w t : List (Json × ℕ)) :
    (ps.foldl workStep (w, t)).1 = ps.foldl workFold w := by
  induction ps generalizing w t with
  | nil => rfl
  | cons p ps ih =>
      by_cases h : isActive p <;> simp [workStep, workFold, h, ih]

theorem lookupCount_foldl_workFold (ps : List Obj) (d : List (Json × ℕ)) (k : Json) :
    lookupCount (ps.foldl workFold d) k =
      lookupCount d k + ((ps.filter isActive).map (fun p => occCount k (teamOf p))).sum := by
  induction ps generalizing d with
  | nil => simp
  | cons p ps ih =>
      by_cases h : isActive p
      · rw [List.foldl_cons]
        simp only [workFold, h, if_true]
        rw [ih, lookupCount_foldl_bump]
        simp [h]
        ring
      · rw [List.foldl_cons]
        simp only [workFold, h, if_false]
        rw [ih]
        simp [h]

theorem foldl_scan (cfg : Config) (files : List FileEntry) (as : List Obj) (ds : List Diag) :
    files.foldl (scanStep cfg) (as, ds) =
      (as ++ files.filterMap (okOf cfg), ds ++ files.filterMap (diagOf cfg)) := by
  induction files generalizing as ds with
  | nil => simp
  | cons f fs ih =>
      rw [List.foldl_cons]
      have hcase :
          scanStep cfg (as, ds) f = (as ++ (okOf cfg f).toList, ds ++ (diagOf cfg f).toList) := by
        unfold scanStep okOf diagOf processFile attachMeta
        match hc : f.content with
        | none => simp
        | some j =>
            cases hsc : cfg.schemaConfigured
            · cases j <;> simp [hsc]
            · cases hso : cfg.schemaOk j
              · simp [hsc, hso]
              · cases j <;> simp [hsc, hso]
      rw [hcase, ih]
      cases hok : okOf cfg f <;> cases hdg : diagOf cfg f <;>
        simp [List.filterMap_cons, hok, hdg]

theorem okOf_isSome (cfg : Config) (f : FileEntry) :
    (okOf cfg f).isSome = goodFile cfg f := by
  unfold okOf goodFile processFile attachMeta
  match hc : f.content with
  | none => simp
  | some j =>
      cases hsc : cfg.schemaConfigured
      · cases j <;> simp_all
      · cases hso : cfg.schemaOk j
        · cases j <;> simp_all
        · cases j <;> simp_all

theorem length_filterMap_eq_length_filter {α β : Type} (g : α → Option β) (p : α → Bool)
    (h : ∀ a, (g a).isSome = p a) (l : List α) :
    (l.filterMap g).length = (l.filter p).length := by
  induction l with
  | nil => rfl
  | cons a l ih =>
      have ha := h a
      cases hg : g a
      · rw [hg] at ha
        simp [List.filterMap_cons, List.filter_cons, hg, ← ha, ih]
      · rw [hg] at ha
        simp [List.filterMap_cons, List.filter_cons, hg, ← ha, ih]

/-! Helper lemmas about the stable insertion sort and the Python string
order. -/

theorem charListLe_refl (l : List Char) : charListLe l l = true := by
  induction l with
  | nil => rfl
  | cons a l ih => simp [charListLe, ih]

theorem charListLe_total (a b : List Char) (h : charListLe a b = false) :
    charListLe b a = true := by
  induction a generalizing b with
  | nil => simp [charListLe] at h
  | cons x xs ih =>
      match b with
      | [] => simp [charListLe]
      | y :: ys =>
          unfold charListLe at h ⊢
          by_cases h₁ : x.toNat < y.toNat
          · simp [h₁] at h
          · by_cases h₂ : y.toNat < x.toNat
            · simp [h₂]
            · simp [h₁, h₂] at h ⊢
              exact ih ys h

theorem charListLe_trans (a b c : List Char) (hab : charListLe a b = true)
    (hbc : charListLe b c = true) : charListLe a c = true := by
  induction a generalizing b c with
  | nil => rfl
  | cons x xs ih =>
      match b, c with
      | [], _ => simp [charListLe] at hab
      | _ :: _, [] => simp [charListLe] at hbc
      | y :: ys, z :: zs =>
          unfold charListLe at hab hbc ⊢
          rcases Nat.lt_trichotomy x.toNat y.toNat with h₁ | h₁ | h₁ <;>
            rcases Nat.lt_trichotomy y.toNat z.toNat with h₂ | h₂ | h₂ <;>
              simp_all [Nat.lt_irrefl, Nat.lt_asymm] <;>
                first
                | exact Or.inl (Nat.lt_trans h₁ h₂)
                | exact ih ys zs hab hbc
                | omega

theorem charListLe_nil_of_le_nil (l : List Char) (h : charListLe l [] = true) : l = [] := by
  cases l with
  | nil => rfl
  | cons a l => simp [charListLe] at h

theorem pyStrLe_refl (s : String) : pyStrLe s s = true := charListLe_refl s.data

theorem pyStrLe_total (a b : String) (h : pyStrLe a b = false) : pyStrLe b a = true :=
  charListLe_total a.data b.data h

theorem pyStrLe_trans (a b c : String) (hab : pyStrLe a b = true) (hbc : pyStrLe b c = true) :
    pyStrLe a c = true :=
  charListLe_trans a.data b.data c.data hab hbc

theorem pyStrLe_empty_right (s : String) (h : pyStrLe s "" = true) : s = "" := by
  have hd : s.data = [] := charListLe_nil_of_le_nil s.data h
  cases s
  simp_all

theorem pyLower_empty (q : String) (h : pyLower q = "") : q = "" := by
  cases q with
  | mk d =>
      cases d with
      | nil => rfl
      | cons c cs =>
          have hd : (pyLower (String.mk (c :: cs))).data = ("" : String).data := by rw [h]
          simp [pyLower] at hd

theorem mem_insertBy {α : Type} (le : α → α → Bool) (a x : α) (l : List α) :
    x ∈ insertBy le a l ↔ x = a ∨ x ∈ l := by
  induction l with
  | nil => simp [insertBy]
  | cons b bs ih =>
      unfold insertBy
      by_cases h : le a b
      · simp [h]
      · simp [h, ih]
        tauto

theorem length_insertBy {α : Type} (le : α → α → Bool) (a : α) (l : List α) :
    (insertBy le a l).length = l.length + 1 := by
  induction l with
  | nil => rfl
  | cons b bs ih =>
      unfold insertBy
      by_cases h : le a b <;> simp [h, ih]

theorem length_sortBy {α : Type} (le : α → α → Bool) (l : List α) :
    (sortBy le l).length = l.length := by
  induction l with
  | nil => rfl
  | cons a as ih => simp [sortBy, length_insertBy, ih]

theorem mem_sortBy {α : Type} (le : α → α → Bool) (x : α) (l : List α) :
    x ∈ sortBy le l ↔ x ∈ l := by
  induction l with
  | nil => simp [sortBy]
  | cons a as ih => simp [sortBy, mem_insertBy, ih]

theorem pairwise_insertBy {α : Type} (le : α → α → Bool)
    (htotal : ∀ x y, le x y = false → le y x = true)
    (htrans : ∀ x y z, le x y = true → le y z = true → le x z = true)
    (a : α) (l : List α) (h : l.Pairwise (fun x y => le x y = true)) :
    (insertBy le a l).Pairwise (fun x y => le x y = true) := by
  induction l with
  | nil => simp [insertBy]
  | cons b bs ih =>
      rw [List.pairwise_cons] at h
      unfold insertBy
      by_cases hab : le a b
      · rw [if_pos hab, List.pairwise_cons]
        refine ⟨?_, List.pairwise_cons.mpr h⟩
        intro y hy
        rcases List.mem_cons.mp hy with hy | hy
        · subst hy; exact hab
        · exact htrans a b y hab (h.1 y hy)
      · rw [if_neg hab, List.pairwise_cons]
        refine ⟨?_, ih h.2⟩
        intro y hy
        rcases (mem_insertBy le a y bs).mp hy with hy | hy
        · have hba := htotal a b (by simpa using hab)
          subst hy
          exact hba
        · exact h.1 y hy

theorem pairwise_sortBy {α : Type} (le : α → α → Bool)
    (htotal : ∀ x y, le x y = false → le y x = true)
    (htrans : ∀ x y z, le x y = true → le y z = true → le x z = true)
    (l : List α) : (sortBy le l).Pairwise (fun x y => le x y = true) := by
  induction l with
  | nil => simp [sortBy]
  | cons a as ih => exact pairwise_insertBy le htotal htrans a (sortBy le as) ih

theorem manifestLe_total (x y : Obj) (h : manifestLe x y = false) : manifestLe y x = true :=
  pyStrLe_total _ _ h

theorem manifestLe_trans (x y z : Obj) (h₁ : manifestLe x y = true)
    (h₂ : manifestLe y z = true) : manifestLe x z = true :=
  pyStrLe_trans _ _ _ h₁ h₂

theorem filter_insertBy_of_pos {α : Type} (le : α → α → Bool) (p : α → Bool) (a : α)
    (l : List α) (hpa : p a = true) (hp : ∀ b, le a b = false → p b = false) :
    (insertBy le a l).filter p = a :: l.filter p := by
  induction l with
  | nil => simp [insertBy, hpa]
  | cons b bs ih =>
      unfold insertBy
      by_cases h : le a b
      · simp [h, List.filter_cons, hpa]
      · have hb : p b = false := hp b (by simpa using h)
        simp [h, List.filter_cons, hb, ih]

theorem filter_insertBy_of_neg {α : Type} (le : α → α → Bool) (p : α → Bool) (a : α)
    (l : List α) (hpa : p a = false) :
    (insertBy le a l).filter p = l.filter p := by
  induction l with
  | nil => simp [insertBy, hpa]
  | cons b bs ih =>
      unfold insertBy
      by_cases h : le a b
      · simp [h, List.filter_cons, hpa]
      · simp [h, List.filter_cons, ih]

/-- Stability of the discover sort: for every name, the manifests
carrying that name appear in the sorted output in exactly the order the
scan produced them. -/
theorem filter_sortBy_strKey (k : String) (l : List Obj) :
    (sortBy manifestLe l).filter (fun o => strKey o = k) =
      l.filter (fun o => strKey o = k) := by
  induction l with
  | nil => rfl
  | cons a as ih =>
      unfold sortBy
      by_cases ha : strKey a = k
      · rw [filter_insertBy_of_pos manifestLe _ a (sortBy manifestLe as) (by simp [ha]) ?_]
        · simp [List.filter_cons, ha, ih]
        · intro b hb
          by_cases hbk : strKey b = k
          · exfalso
            have : manifestLe a b = true := by
              unfold manifestLe
              rw [ha, hbk]
              exact pyStrLe_refl k
            simp [this] at hb
          · simp [hbk]
      · rw [filter_insertBy_of_neg manifestLe _ a (sortBy manifestLe as) (by simp [ha])]
        simp [List.filter_cons, ha, ih]

/-- discover_projects on an existing directory, characterized as a
filterMap of the per-file outcome followed by the stable sort: no file
aborts the scan of the others. -/
theorem discover_eq (cfg : Config) (files : List FileEntry) :
    discover_projects cfg (some files) =
      (sortBy manifestLe (files.filterMap (okOf cfg)), files.filterMap (diagOf cfg)) := by
  simp only [discover_projects]
  rw [foldl_scan]
  simp

theorem revStep_fst (acc : ℚ × List RevProj) (p : Obj) :
    (revStep acc p).1 = acc.1 + projRevenue p := by
  by_cases h : 0 < projRevenue p <;> simp [revStep, h]

theorem foldl_revStep_fst (ps : List Obj) (t : ℚ) (l : List RevProj) :
    (ps.foldl revStep (t, l)).1 = t + (ps.map projRevenue).sum := by
  induction ps generalizing t l with
  | nil => simp
  | cons p ps ih =>
      rw [List.foldl_cons, List.map_cons, List.sum_cons]
      by_cases h : 0 < projRevenue p
      · simp only [revStep, if_pos h]
        rw [ih]
        ring
      · simp only [revStep, if_neg h]
        rw [ih]
        ring

theorem foldl_revStep_snd (ps : List Obj) (t : ℚ) (l : List RevProj) :
    (ps.foldl revStep (t, l)).2 =
      l ++ (ps.filter (fun p => decide (0 < projRevenue p))).map mkRevProj := by
  induction ps generalizing t l with
  | nil => simp
  | cons p ps ih =>
      rw [List.foldl_cons]
      by_cases h : 0 < projRevenue p
      · simp only [revStep, if_pos h]
        rw [ih]
        simp [h]
      · simp only [revStep, if_neg h]
        rw [ih]
        simp [h]

/-! Evaluation lemmas for the concrete revenue fixtures. -/

theorem parse_revenue_dollar : parse_revenue (.str "$1,234.50") = 1234.5 := by
  have h : parseFloatParts? (cleanRevenue "$1,234.50") = some (false, 123450, 2) := by decide
  simp [parse_revenue, pyFalsy, h, ratOfParts]
  norm_num

theorem parse_revenue_na : parse_revenue (.str "N/A") = 0 := by
  have h : parseFloatParts? (cleanRevenue "N/A") = none := by decide
  simp [parse_revenue, pyFalsy, h, ratOfParts]

theorem parse_revenue_num42 : parse_revenue (.num 42) = 42 := by
  norm_num [parse_revenue, pyFalsy]

theorem projRevenue_exRev1 : projRevenue exRev1 = 1234.5 := by
  have h : pyGetJ (projMetrics exRev1) "revenue" (.num 0) = .str "$1,234.50" := by decide
  unfold projRevenue
  rw [h]
  exact parse_revenue_dollar

theorem projRevenue_exRev2 : projRevenue exRev2 = 42 := by
  have h : pyGetJ (projMetrics exRev2) "revenue" (.num 0) = .num 42 := by decide
  unfold projRevenue
  rw [h]
  exact parse_revenue_num42

theorem projRevenue_exRev3 : projRevenue exRev3 = 0 := by
  have h : pyGetJ (projMetrics exRev3) "revenue" (.num 0) = .str "N/A" := by decide
  unfold projRevenue
  rw [h]
  exact parse_revenue_na

end Foundry

namespace Foundry

/-- Claim C1: DashboardManager.parse_revenue is total and never raises:
an already-numeric value passes through as a float, a string is stripped
of every character that is not a digit, dot or minus and parsed as a
float, and an empty or unparsable remainder yields 0.0; in particular
parse_revenue on the dollar string 1,234.50 gives 1234.50, on the empty
string 0.0, on N/A 0.0 and on the number 42 gives 42.0, and the
aggregation attributes exactly these values to manifests whose
metrics.revenue holds them. -/
theorem C1_parse_revenue_total :
    parse_revenue (.str "$1,234.50") = 1234.5 ∧
    parse_revenue (.str "") = 0 ∧
    parse_revenue (.str "N/A") = 0 ∧
    parse_revenue (.num 42) = 42 ∧
    (get_empire_analytics [exRev1, exRev2, exRev3]).total_revenue = 1234.5 + 42 := by
  refine ⟨parse_revenue_dollar, by decide, parse_revenue_na, parse_revenue_num42, ?_⟩
  show (List.foldl revStep (0, []) [exRev1, exRev2, exRev3]).1 = 1234.5 + 42
  rw [foldl_revStep_fst]
  rw [List.map_cons, List.map_cons, List.map_cons, List.map_nil]
  rw [projRevenue_exRev1, projRevenue_exRev2, projRevenue_exRev3]
  norm_num

/-- Claim C3: for every manifest set, total_revenue is the sum of the
parsed revenue over all manifests, and revenue_projects is the list of
records (name, revenue, status, users) for exactly the manifests whose
parsed revenue is strictly positive, in scan order. -/
theorem C3_revenue_projects (ps : List Obj) :
    (get_empire_analytics ps).total_revenue = (ps.map projRevenue).sum ∧
    (get_empire_analytics ps).revenue_projects =
      (ps.filter (fun p => decide (0 < projRevenue p))).map mkRevProj := by
  constructor
  · show (ps.foldl revStep (0, [])).1 = (ps.map projRevenue).sum
    rw [foldl_revStep_fst, zero_add]
  · show (ps.foldl revStep (0, [])).2 = _
    rw [foldl_revStep_snd, List.nil_append]

/-- Claim C4 counterexample: one active project whose team lists alice
twice.  The implementation counts the agent once per occurrence, giving
2, while the claim (count of projects listing the agent) predicts 1. -/
theorem C4_duplicate_team_counterexample :
    lookupCount ((get_empire_analytics [exDup]).agent_workload) (.str "alice") = 2 ∧
    workloadSpec [exDup] (.str "alice") = 1 ∧
    lookupCount ((get_empire_analytics [exDup]).agent_workload) (.str "alice") ≠
      workloadSpec [exDup] (.str "alice") :=
  ⟨by decide, by decide, by decide⟩

/-- Claim C4 as amended: agent_workload maps each agent to the total
number of occurrences of that agent across the team lists of
non-archived, non-completed projects, so a project listing an agent k
times contributes k (not 1); the CLI loop computes the same mapping, and
on the two-manifest example of the spec the workload is alice mapped to
1 (the archived project contributes nothing). -/
theorem C4_workload_occurrences (ps : List Obj) (a : Json) :
    lookupCount ((get_empire_analytics ps).agent_workload) a =
      ((ps.filter isActive).map (fun p => occCount a (teamOf p))).sum ∧
    foundry_agent_workload ps = (get_empire_analytics ps).agent_workload ∧
    (get_empire_analytics [exAcme, exArchived]).agent_workload = [(.str "alice", 1)] := by
  refine ⟨?_, ?_, by decide⟩
  · show lookupCount ((ps.foldl workStep ([], taskDistInit)).1) a = _
    rw [foldl_workStep_fst, lookupCount_foldl_workFold]
    simp [lookupCount, jLookup]
  · show ps.foldl workFold [] = (ps.foldl workStep ([], taskDistInit)).1
    rw [foldl_workStep_fst]

/-- Claim C9 counterexample: on an empty (here missing) store the
aggregation returns a task_distribution that is not the empty mapping —
it is the dict initialized with the four priorities at count 0. -/
theorem C9_task_distribution_counterexample :
    (get_empire_analytics ((discover_projects exCfg none).1)).task_distribution =
      [(.str "high", 0), (.str "medium", 0), (.str "low", 0), (.str "critical", 0)] ∧
    (get_empire_analytics ((discover_projects exCfg none).1)).task_distribution ≠ [] :=
  ⟨by decide, by decide⟩

/-- Claim C9 as amended: for an empty store and for a missing store
directory, aggregation returns zero total_projects, an empty manifest
list, empty status_distribution and agent_workload, and a
task_distribution holding exactly the four priorities high, medium, low,
critical each with count 0. -/
theorem C9_empty_store (cfg : Config) :
    discover_projects cfg none = ([], []) ∧
    discover_projects cfg (some []) = ([], []) ∧
    (get_empire_analytics []).total_projects = 0 ∧
    (get_empire_analytics []).projects = [] ∧
    (get_empire_analytics []).status_distribution = [] ∧
    (get_empire_analytics []).agent_workload = [] ∧
    (get_empire_analytics []).task_distribution =
      [(.str "high", 0), (.str "medium", 0), (.str "low", 0), (.str "critical", 0)] :=
  ⟨rfl, rfl, rfl, rfl, rfl, rfl, rfl⟩

/-- Claim C2 counterexample: a store with one file whose body is the
valid JSON value 42 (not an object).  It parses as valid JSON and no
schema is configured, so the claim counts it, but the implementation
skips it (attaching metadata raises TypeError, caught by the catch-all
branch) and records the generic load diagnostic. -/
theorem C2_nonobject_counterexample :
    claimValidCount exCfg [exNumFile] = 1 ∧
    (get_empire_analytics (discover_projects exCfg (some [exNumFile])).1).total_projects = 0 ∧
    (get_empire_analytics (discover_projects exCfg (some [exNumFile])).1).total_projects ≠
      claimValidCount exCfg [exNumFile] ∧
    (discover_projects exCfg (some [exNumFile])).2 = [⟨"n.json", .loadError⟩] :=
  ⟨by decide, by decide, by decide, by decide⟩

/-- Claim C2 as amended: total_projects equals the number of files that
parse as valid JSON objects and (when a schema is configured) validate
against it; every failing file is excluded, receives a diagnostic whose
kind distinguishes parse errors from schema violations (with a generic
load kind for valid non-object JSON), and never aborts the scan — the
result is exactly the filterMap of the per-file outcomes. -/
theorem C2_total_projects_count (cfg : Config) (files : List FileEntry) :
    (discover_projects cfg (some files)).1 =
      sortBy manifestLe (files.filterMap (okOf cfg)) ∧
    (discover_projects cfg (some files)).1.length =
      (files.filter (goodFile cfg)).length ∧
    (get_empire_analytics (discover_projects cfg (some files)).1).total_projects =
      (files.filter (goodFile cfg)).length ∧
    (discover_projects cfg (some files)).2 = files.filterMap (diagOf cfg) := by
  have hd := discover_eq cfg files
  have h1 : (discover_projects cfg (some files)).1 =
      sortBy manifestLe (files.filterMap (okOf cfg)) := by rw [hd]
  have hlen : (discover_projects cfg (some files)).1.length =
      (files.filter (goodFile cfg)).length := by
    rw [h1, length_sortBy,
      length_filterMap_eq_length_filter (okOf cfg) (goodFile cfg) (okOf_isSome cfg) files]
  refine ⟨h1, hlen, ?_, by rw [hd]⟩
  show (discover_projects cfg (some files)).1.length = _
  exact hlen

/-- Reduction of the create operation once the schema check passes and
the project name is a string. -/
theorem create_eq (cfg : Config) (files : List FileEntry) (fs : Obj) (nm mtime : String)
    (hs : (cfg.schemaConfigured && !cfg.schemaOk (.obj fs)) = false)
    (hn : (pyLookup fs "projectName").getD (.str "unknown") = .str nm) :
    create_project_from_manifest cfg files (.obj fs) mtime =
      if (fileNamed files (derivedKey nm ++ ".json")).isSome then
        .error (.alreadyExists nm)
      else .ok (files ++ [⟨derivedKey nm ++ ".json", mtime, some (.obj fs)⟩]) := by
  simp only [create_project_from_manifest, hs, Bool.false_eq_true, if_false, hn]

/-- Claim C5: for every candidate manifest whose derived file name is
already present in the store, create fails with the already-exists
condition and leaves the store (in particular the existing file)
unchanged; when no file with that derived name exists it writes the new
manifest as a new file and touches nothing else. -/
theorem C5_create_already_exists (cfg : Config) (files : List FileEntry) (fs : Obj)
    (nm mtime : String)
    (hs : (cfg.schemaConfigured && !cfg.schemaOk (.obj fs)) = false)
    (hn : (pyLookup fs "projectName").getD (.str "unknown") = .str nm) :
    ((fileNamed files (derivedKey nm ++ ".json")).isSome →
      create_project_from_manifest cfg files (.obj fs) mtime = .error (.alreadyExists nm) ∧
      afterCreate cfg files (.obj fs) mtime = files) ∧
    (fileNamed files (derivedKey nm ++ ".json") = none →
      create_project_from_manifest cfg files (.obj fs) mtime =
        .ok (files ++ [⟨derivedKey nm ++ ".json", mtime, some (.obj fs)⟩]) ∧
      afterCreate cfg files (.obj fs) mtime =
        files ++ [⟨derivedKey nm ++ ".json", mtime, some (.obj fs)⟩] ∧
      fileNamed files (derivedKey nm ++ ".json") = none) := by
  have hc := create_eq cfg files fs nm mtime hs hn
  constructor
  · intro hex
    have he : create_project_from_manifest cfg files (.obj fs) mtime =
        .error (.alreadyExists nm) := by rw [hc, if_pos hex]
    exact ⟨he, by unfold afterCreate; rw [he]⟩
  · intro hnon
    have hno : (fileNamed files (derivedKey nm ++ ".json")).isSome = false := by
      rw [hnon]; rfl
    have he : create_project_from_manifest cfg files (.obj fs) mtime =
        .ok (files ++ [⟨derivedKey nm ++ ".json", mtime, some (.obj fs)⟩]) := by
      rw [hc, if_neg (by simp [hno])]
    exact ⟨he, by unfold afterCreate; rw [he], hnon⟩

/-- Claim C5 witness: on a store already holding acme.json, creating a
manifest named Acme fails with already-exists and the store is
unchanged. -/
theorem C5_create_already_exists_witness :
    create_project_from_manifest exCfg [exAcmeFile] (.obj exAcme) "t9" =
      .error (.alreadyExists "Acme") ∧
    afterCreate exCfg [exAcmeFile] (.obj exAcme) "t9" = [exAcmeFile] :=
  (C5_create_already_exists exCfg [exAcmeFile] exAcme "Acme" "t9" (by decide)
    (by decide)).1 (by decide)

/-- Claim C6 counterexample: the CLI create operation derives my-app
from the name My-App — the hyphen is not replaced by an underscore — so
the manifest is stored as my-app.json and no file my_app.json is
written. -/
theorem C6_hyphen_counterexample :
    afterCreate exCfg [] (.obj [("projectName", .str "My-App")]) "t" =
      [⟨"my-app.json", "t", some (.obj [("projectName", .str "My-App")])⟩] ∧
    fileNamed (afterCreate exCfg [] (.obj [("projectName", .str "My-App")]) "t")
      "my_app.json" = none ∧
    derivedKey "My-App" ≠ "my_app" :=
  ⟨by decide, by decide, by decide⟩

/-- Claim C6 as amended: the derived file-name key of the CLI create
operation is the project name lowercased with every space (but not
hyphens) replaced by an underscore, and the manifest is stored as that
key followed by .json in the projects directory; only the dashboard
form-create path additionally replaces hyphens. -/
theorem C6_derived_key (cfg : Config) (fs : Obj) (nm mtime : String)
    (hs : (cfg.schemaConfigured && !cfg.schemaOk (.obj fs)) = false)
    (hn : (pyLookup fs "projectName").getD (.str "unknown") = .str nm) :
    create_project_from_manifest cfg [] (.obj fs) mtime =
      .ok [⟨replaceChar ' ' '_' (pyLower nm) ++ ".json", mtime, some (.obj fs)⟩] ∧
    derivedKey "My App" = "my_app" ∧
    derivedKey "My-App" = "my-app" ∧
    dashboardFormKey "My-App" = "my_app" := by
  refine ⟨?_, by decide, by decide, by decide⟩
  have hc := create_eq cfg [] fs nm mtime hs hn
  rw [hc, if_neg (by simp [fileNamed, List.find?])]
  rfl

/-- Claim C6 witness: creating a manifest named My App on an empty store
writes my_app.json. -/
theorem C6_derived_key_witness :
    create_project_from_manifest exCfg [] (.obj [("projectName", .str "My App")]) "t0" =
      .ok [⟨"my_app.json", "t0", some (.obj [("projectName", .str "My App")])⟩] :=
  (C6_derived_key exCfg [("projectName", .str "My App")] "My App" "t0" (by decide)
    (by decide)).1

/-- Claim C7: when the case-insensitive lookup finds no manifest for the
requested project name, assign fails with project-not-found and writes
no assignment file; when it succeeds, exactly one new assignment record
is written (status assigned, completed_at and result both null), every
other shared-context file is untouched, and the projects directory is
not modified. -/
theorem C7_assign_task (cfg : Config) (st : HubState) (task q agent ns ni : String) :
    (find_project cfg st.projectsDir q = none →
      assign_task cfg st task q agent ns ni = .error (.projectNotFound q) ∧
      afterAssign cfg st task q agent ns ni = st) ∧
    ((find_project cfg st.projectsDir q).isSome →
      assign_task cfg st task q agent ns ni =
        .ok (⟨st.projectsDir,
              setKey st.shared
                (replaceChar ' ' '_' (pyLower q) ++ "_" ++ ("task_" ++ ns) ++ ".json")
                ⟨"task_" ++ ns, task, q, agent, "assigned", ni, none, none⟩⟩,
             ⟨"task_" ++ ns, task, q, agent, "assigned", ni, none, none⟩) ∧
      (afterAssign cfg st task q agent ns ni).projectsDir = st.projectsDir ∧
      pyLookup (afterAssign cfg st task q agent ns ni).shared
          (replaceChar ' ' '_' (pyLower q) ++ "_" ++ ("task_" ++ ns) ++ ".json") =
        some ⟨"task_" ++ ns, task, q, agent, "assigned", ni, none, none⟩ ∧
      (∀ f, ¬(replaceChar ' ' '_' (pyLower q) ++ "_" ++ ("task_" ++ ns) ++ ".json" = f) →
        pyLookup (afterAssign cfg st task q agent ns ni).shared f = pyLookup st.shared f)) := by
  constructor
  · intro hf
    have he : assign_task cfg st task q agent ns ni = .error (.projectNotFound q) := by
      unfold assign_task
      rw [hf]
    exact ⟨he, by unfold afterAssign; rw [he]⟩
  · intro hf
    obtain ⟨p, hp⟩ := Option.isSome_iff_exists.mp hf
    have he : assign_task cfg st task q agent ns ni =
        .ok (⟨st.projectsDir,
              setKey st.shared
                (replaceChar ' ' '_' (pyLower q) ++ "_" ++ ("task_" ++ ns) ++ ".json")
                ⟨"task_" ++ ns, task, q, agent, "assigned", ni, none, none⟩⟩,
             ⟨"task_" ++ ns, task, q, agent, "assigned", ni, none, none⟩) := by
      unfold assign_task
      rw [hp]
    have ha : afterAssign cfg st task q agent ns ni =
        ⟨st.projectsDir,
         setKey st.shared
           (replaceChar ' ' '_' (pyLower q) ++ "_" ++ ("task_" ++ ns) ++ ".json")
           ⟨"task_" ++ ns, task, q, agent, "assigned", ni, none, none⟩⟩ := by
      unfold afterAssign
      rw [he]
    refine ⟨he, by rw [ha], ?_, ?_⟩
    · rw [ha]
      show pyLookup (setKey st.shared _ _) _ = _
      rw [pyLookup_setKey]
      simp
    · intro f hne
      rw [ha]
      show pyLookup (setKey st.shared _ _) f = _
      rw [pyLookup_setKey, if_neg hne]

/-- Claim C7 witness: on a hub whose store holds the Acme manifest, an
assignment to the (differently-capitalized) project ACME succeeds and
writes the record, while an assignment to Ghost fails with
project-not-found and leaves the state unchanged. -/
theorem C7_assign_task_witness :
    assign_task exCfg exHub "write tests" "ACME" "bob" "20240102_030405" "iso-now" =
      .ok (⟨exHub.projectsDir,
            setKey exHub.shared "acme_task_20240102_030405.json"
              ⟨"task_20240102_030405", "write tests", "ACME", "bob", "assigned",
               "iso-now", none, none⟩⟩,
           ⟨"task_20240102_030405", "write tests", "ACME", "bob", "assigned",
            "iso-now", none, none⟩) ∧
    assign_task exCfg exHub "write tests" "Ghost" "bob" "20240102_030405" "iso-now" =
      .error (.projectNotFound "Ghost") ∧
    afterAssign exCfg exHub "write tests" "Ghost" "bob" "20240102_030405" "iso-now" = exHub := by
  have hok :=
    (C7_assign_task exCfg exHub "write tests" "ACME" "bob" "20240102_030405" "iso-now").2
      (by decide)
  have hko :=
    (C7_assign_task exCfg exHub "write tests" "Ghost" "bob" "20240102_030405" "iso-now").1
      (by decide)
  exact ⟨hok.1, hko.1, hko.2⟩

/-- Claim C8: the manifest list returned by discovery is sorted by
projectName in ascending case-sensitive (code-point) order, and the sort
is stable: for every name, the manifests carrying it keep the order in
which the scan produced them.  On a store with manifests named Zeta,
alpha and Beta the returned order is Beta, Zeta, alpha.  The hypothesis
restricts the statement to stores whose surviving manifests carry string
(or absent) project names — on any other store CPython raises inside
sorted instead of returning a list. -/
theorem C8_sorted_by_name (cfg : Config) (files : List FileEntry)
    (_hnames : ((files.filterMap (okOf cfg)).all hasStrName) = true) :
    (discover_projects cfg (some files)).1.Pairwise (fun x y => manifestLe x y = true) ∧
    (∀ k, (discover_projects cfg (some files)).1.filter (fun o => strKey o = k) =
      (files.filterMap (okOf cfg)).filter (fun o => strKey o = k)) ∧
    (discover_projects exCfg (some [exZeta, exAlpha, exBeta])).1.map strKey =
      ["Beta", "Zeta", "alpha"] := by
  refine ⟨?_, ?_, by decide⟩
  · have h1 : (discover_projects cfg (some files)).1 =
        sortBy manifestLe (files.filterMap (okOf cfg)) := by rw [discover_eq]
    rw [h1]
    exact pairwise_sortBy manifestLe manifestLe_total manifestLe_trans _
  · intro k
    have h1 : (discover_projects cfg (some files)).1 =
        sortBy manifestLe (files.filterMap (okOf cfg)) := by rw [discover_eq]
    rw [h1]
    exact filter_sortBy_strKey k _

/-- Claim C8 witness: the Zeta, alpha, Beta store satisfies the
string-name hypothesis and its discovered list is pairwise sorted. -/
theorem C8_sorted_by_name_witness :
    (([exZeta, exAlpha, exBeta].filterMap (okOf exCfg)).all hasStrName) = true ∧
    (discover_projects exCfg (some [exZeta, exAlpha, exBeta])).1.Pairwise
      (fun x y => manifestLe x y = true) :=
  ⟨by decide, (C8_sorted_by_name exCfg [exZeta, exAlpha, exBeta] (by decide)).1⟩

/-- Claim C10: a valid JSON object manifest lacking projectName is not
rejected — discovery includes it and counts it in total_projects, it
sorts with the empty string as its key (and, being the only such
manifest in the store, comes first), and find_project returns it exactly
when queried with the empty string.  The hypotheses fix the file, state
that no schema is configured, and state (decidably) that it is the only
surviving manifest whose sort key is empty. -/
theorem C10_missing_name (cfg : Config) (files : List FileEntry) (f0 : FileEntry) (fs0 : Obj)
    (hmem : f0 ∈ files)
    (hcontent : f0.content = some (.obj fs0))
    (hname : pyLookup fs0 "projectName" = none)
    (hschema : cfg.schemaConfigured = false)
    (huniq : (files.all (fun g =>
        (okOf cfg g).elim true
          (fun og => !decide (strKey og = "") || decide (og = attachObj f0 fs0)))) = true) :
    strKey (attachObj f0 fs0) = "" ∧
    attachObj f0 fs0 ∈ (discover_projects cfg (some files)).1 ∧
    (get_empire_analytics (discover_projects cfg (some files)).1).total_projects =
      (discover_projects cfg (some files)).1.length ∧
    (discover_projects cfg (some files)).1.head? = some (attachObj f0 fs0) ∧
    (∀ q, find_project cfg (some files) q = some (attachObj f0 fs0) ↔ q = "") := by
  have hok : okOf cfg f0 = some (attachObj f0 fs0) := by
    unfold okOf processFile attachMeta
    rw [hcontent, hschema]
    simp
  have hkey : strKey (attachObj f0 fs0) = "" := by
    unfold strKey attachObj
    rw [pyLookup_setKey, if_neg (by decide), pyLookup_setKey, if_neg (by decide), hname]
    rfl
  have hvmem : attachObj f0 fs0 ∈ files.filterMap (okOf cfg) :=
    List.mem_filterMap.mpr ⟨f0, hmem, hok⟩
  have h1 : (discover_projects cfg (some files)).1 =
      sortBy manifestLe (files.filterMap (okOf cfg)) := by rw [discover_eq]
  have hpmem : attachObj f0 fs0 ∈ (discover_projects cfg (some files)).1 := by
    rw [h1]
    exact (mem_sortBy manifestLe _ _).mpr hvmem
  have huniqP : ∀ x ∈ files.filterMap (okOf cfg), strKey x = "" → x = attachObj f0 fs0 := by
    intro x hx hxk
    obtain ⟨g, hg, hgx⟩ := List.mem_filterMap.mp hx
    have := List.all_eq_true.mp huniq g hg
    rw [hgx] at this
    simp only [Option.elim, Bool.or_eq_true, Bool.not_eq_eq_eq_not, Bool.not_true,
      decide_eq_false_iff_not, decide_eq_true_eq] at this
    rcases this with h | h
    · exact absurd hxk h
    · exact h
  have hpair : (discover_projects cfg (some files)).1.Pairwise
      (fun x y => manifestLe x y = true) := by
    rw [h1]
    exact pairwise_sortBy manifestLe manifestLe_total manifestLe_trans _
  have hhead : (discover_projects cfg (some files)).1.head? = some (attachObj f0 fs0) := by
    cases hps : (discover_projects cfg (some files)).1 with
    | nil => rw [hps] at hpmem; cases hpmem
    | cons h t =>
        rw [hps] at hpmem
        rcases List.mem_cons.mp hpmem with he | ht
        · rw [← he]
          rfl
        · rw [hps] at hpair
          have hle : manifestLe h (attachObj f0 fs0) = true :=
            (List.pairwise_cons.mp hpair).1 _ ht
          unfold manifestLe at hle
          rw [hkey] at hle
          have hk : strKey h = "" := pyStrLe_empty_right _ hle
          have hmem2 : h ∈ files.filterMap (okOf cfg) := by
            have : h ∈ (discover_projects cfg (some files)).1 := by
              rw [hps]; exact List.mem_cons_self h t
            rw [h1] at this
            exact (mem_sortBy manifestLe _ _).mp this
          rw [huniqP h hmem2 hk]
          rfl
  refine ⟨hkey, hpmem, rfl, hhead, ?_⟩
  intro q
  constructor
  · intro hfind
    have hp := List.find?_some hfind
    simp only [decide_eq_true_eq] at hp
    rw [hkey] at hp
    have : pyLower q = "" := hp.symm
    exact pyLower_empty q this
  · intro hq
    subst hq
    unfold find_project
    obtain ⟨t, ht⟩ : ∃ t, (discover_projects cfg (some files)).1 =
        attachObj f0 fs0 :: t := by
      cases hps : (discover_projects cfg (some files)).1 with
      | nil => rw [hps] at hhead; cases hhead
      | cons h t =>
          rw [hps] at hhead
          have hh : h = attachObj f0 fs0 := by simpa using hhead
          exact ⟨t, by rw [hh]⟩
    rw [ht]
    apply List.find?_cons_of_pos
    simp [hkey]

/-- Claim C10 witness: a store holding acme.json and a manifest without
projectName — the nameless manifest is discovered, sorts first, and is
returned by find_project exactly for the empty query. -/
theorem C10_missing_name_witness :
    (discover_projects exCfg (some [exAcmeFile, exNoNameFile])).1.head? =
      some (attachObj exNoNameFile [("status", .str "planning")]) ∧
    find_project exCfg (some [exAcmeFile, exNoNameFile]) "" =
      some (attachObj exNoNameFile [("status", .str "planning")]) := by
  have h := C10_missing_name exCfg [exAcmeFile, exNoNameFile] exNoNameFile
    [("status", .str "planning")] (by decide) (by decide) (by decide) (by decide) (by decide)
  exact ⟨h.2.2.2.1, (h.2.2.2.2 "").mpr rfl⟩

end Foundry
